import Mathlib

/-!
Verification of the SatGate payment-session core
(`src/sdk/python/satgate/client.py`).

The development shallowly embeds the Python source:

* `searchKey` models `re.search` for the patterns `macaroon="([^"]+)"` and
  `invoice="([^"]+)"` (literal key text followed by a non-empty run of
  non-quote characters and a closing quote; leftmost successful start
  position wins, exactly as `re.search` scans).
* `parseChars` / `parseChallenge` model the header handling of
  `SatGateSession._handle_payment_flow` lines 40-64: the falsiness check on
  the header value, the substring test for the scheme text, and the two
  regex extractions.
* `payInvoiceChecked` models the `try` block around
  `wallet.pay_invoice` lines 69-77: an exception (or `None` return, which
  the code turns into `ValueError`) and an empty preimage both collapse to
  `none` and are caught.
* `buildRetryRequest` models lines 85-95: the caller-supplied header
  container (absent / `None` / a dict) is read, copied, and the copy gets
  the authorization entry.  The second component is the state of the
  caller's container after the operation; because the code assigns into
  the copy, it is returned unchanged.
* `handlePaymentFlow` and `sessionRequest` model `_handle_payment_flow`
  and `SatGateSession.request`.  The transport (`super().request`) is an
  oracle indexed by the call number so the first and the retried send may
  answer differently; `Except.error` is a transport-level exception.
  A `CallLog` records, in order, every request handed to the transport and
  every invoice handed to the wallet, so call-count properties are stated
  against the log.

Header lookup is modelled as first-match association-list lookup (the
Python `requests` header dict is case-insensitive; all claims here use the
canonical spellings, so the simplification is harmless).
-/

namespace SatGate

/-! ### String constants of the source -/

def authHeaderName : String := "WWW-Authenticate"

def authzName : String := "Authorization"

def emptyS : String := ""

def l402S : String := "L402"

def lsatS : String := "LSAT"

def l402Sp : String := "L402 "

def colonS : String := ":"

def macKeyS : String := "macaroon=\""

def invKeyS : String := "invoice=\""

def macBodyS : String := "macaroon="

def invBodyS : String := "invoice="

def macNameS : String := "macaroon"

def invNameS : String := "invoice"

def commaSpS : String := ", "

def spS : String := " "

/-- The double-quote character closing a regex value match. -/
def dq : Char := '"'

def l402L : List Char := l402S.toList

def lsatL : List Char := lsatS.toList

def macKey : List Char := macKeyS.toList

def invKey : List Char := invKeyS.toList

def macBody : List Char := macBodyS.toList

def invBody : List Char := invBodyS.toList

def macName : List Char := macNameS.toList

def invName : List Char := invNameS.toList

def l402SpL : List Char := l402Sp.toList

def commaSp : List Char := commaSpS.toList

def spL : List Char := spS.toList

/-! ### Regex model: `key="([^"]+)"` searched left to right -/

/-- Boolean list-prefix test (elementwise comparison). -/
def isPre : List Char → List Char → Bool
  | [], _ => true
  | _ :: _, [] => false
  | a :: as, b :: bs => (a == b) && isPre as bs

/-- Substring test, modelling the Python `in` operator on strings. -/
def hasSubstr : List Char → List Char → Bool
  | needle, [] => needle.isEmpty
  | needle, c :: rest => isPre needle (c :: rest) || hasSubstr needle rest

/-- Value capture of `([^"]+)"` right after a matched key: the maximal run
of non-quote characters, required non-empty and followed by a quote. -/
def grabValue (s : List Char) : Option (List Char) :=
  let v := s.takeWhile (fun c => c != dq)
  if v = [] then none
  else if v.length = s.length then none
  else some v

/-- One attempted match of `key"([^"]+)"`-style pattern at the head of `s`
(`key` already includes the opening quote). -/
def matchAt (key s : List Char) : Option (List Char) :=
  if isPre key s then grabValue (s.drop key.length) else none

/-- `re.search`: try every start position left to right, first success
wins. -/
def searchKey (key : List Char) : List Char → Option (List Char)
  | [] => none
  | c :: rest =>
    match matchAt key (c :: rest) with
    | some v => some v
    | none => searchKey key rest

/-- Challenge parsing of `_handle_payment_flow` on the raw header text:
falsiness check, substring scheme test, then the two regex extractions
(lines 44-64 of `client.py`). -/
def parseChars (h : List Char) : Option (List Char × List Char) :=
  if h = [] then none
  else if !(hasSubstr l402L h || hasSubstr lsatL h) then none
  else
    match searchKey macKey h, searchKey invKey h with
    | some m, some i => some (m, i)
    | _, _ => none

/-- Challenge parsing on the optional header value
(`response.headers.get` returns `none` when the header is absent). -/
def parseChallenge : Option String → Option (String × String)
  | none => none
  | some h =>
    match parseChars h.toList with
    | none => none
    | some p => some (String.mk p.1, String.mk p.2)

/-! ### HTTP data model -/

/-- First-match lookup in a header association list. -/
def getHeader : List (String × String) → String → Option String
  | [], _ => none
  | (k2, v) :: rest, k => if k2 = k then some v else getHeader rest k

/-- Dict-style assignment `d[k] = v`: replace the first binding of `k`
(dict keys are unique) or append a fresh one. -/
def setHeader : List (String × String) → String → String → List (String × String)
  | [], k, v => [(k, v)]
  | (k2, v2) :: rest, k, v =>
    if k2 = k then (k, v) :: rest else (k2, v2) :: setHeader rest k v

/-- The caller-supplied `headers` keyword argument: missing from
`kwargs`, explicitly `None`, or an actual dict. -/
inductive HeadersArg where
  | absent : HeadersArg
  | null : HeadersArg
  | given : List (String × String) → HeadersArg
deriving DecidableEq

/-- The outbound request: method, url, the `headers` keyword argument and
an opaque stand-in for the remaining `*args` / `**kwargs`, which the code
passes through unchanged. -/
structure Request where
  method : String
  url : String
  headersArg : HeadersArg
  opts : String
deriving DecidableEq

/-- An HTTP response as the session sees it. -/
structure Response where
  statusCode : Nat
  headers : List (String × String)
  body : String
deriving DecidableEq

/-- Observed side effects of one session call: the requests handed to the
transport and the invoices handed to the wallet, in order. -/
structure CallLog where
  transportCalls : List Request
  walletCalls : List String
deriving DecidableEq

/-- `kwargs.get("headers", {})` followed by the `None` check
(lines 88-90): the base dict the retry headers are built from. -/
def baseHeaders : HeadersArg → List (String × String)
  | HeadersArg.absent => []
  | HeadersArg.null => []
  | HeadersArg.given hs => hs

/-- Lines 85-95 of `client.py`: read the caller's header container, copy
it (`req_headers.copy()`), set the authorization entry on the copy, and
build the retried request from it.  The second component is the caller's
container after the operation; the code mutates only the copy, so the
container comes back unchanged. -/
def buildRetryRequest (req : Request) (token : String) : Request × HeadersArg :=
  let copied := baseHeaders req.headersArg
  let newHeaders := setHeader copied authzName token
  ({ req with headersArg := HeadersArg.given newHeaders }, req.headersArg)

/-- The `try` block around `wallet.pay_invoice` (lines 69-77): `none`
models a raised exception (or a `None` return, which the code converts to
`ValueError`); an empty preimage raises `ValueError` inside the block.
Every failure is caught, so the session sees only `Option`. -/
def payInvoiceChecked (wallet : String → Option String) (invoice : String) :
    Option String :=
  match wallet invoice with
  | none => none
  | some p => if p = emptyS then none else some p

/-- `SatGateSession._handle_payment_flow`: parse the challenge, pay,
retry with the credential.  Every non-success branch returns the original
402 response. -/
def handlePaymentFlow (transport : Nat → Request → Except String Response)
    (wallet : String → Option String) (resp : Response) (req : Request) :
    Except String Response × CallLog :=
  match parseChallenge (getHeader resp.headers authHeaderName) with
  | none => (Except.ok resp, ⟨[req], []⟩)
  | some (macaroon, invoice) =>
    match payInvoiceChecked wallet invoice with
    | none => (Except.ok resp, ⟨[req], [invoice]⟩)
    | some preimage =>
      (transport 1 (buildRetryRequest req (l402Sp ++ macaroon ++ colonS ++ preimage)).1,
       ⟨[req, (buildRetryRequest req (l402Sp ++ macaroon ++ colonS ++ preimage)).1],
        [invoice]⟩)

/-- `SatGateSession.request`: send, intercept 402, otherwise pass the
response through.  A transport exception on the first send is re-raised
unchanged (`Except.error`). -/
def sessionRequest (transport : Nat → Request → Except String Response)
    (wallet : String → Option String) (req : Request) :
    Except String Response × CallLog :=
  match transport 0 req with
  | Except.error e => (Except.error e, ⟨[req], []⟩)
  | Except.ok resp =>
    if resp.statusCode = 402 then handlePaymentFlow transport wallet resp req
    else (Except.ok resp, ⟨[req], []⟩)

/-! ### Basic lemmas about the regex model -/

lemma isPre_cons (a b : Char) (as bs : List Char) :
    isPre (a :: as) (b :: bs) = ((a == b) && isPre as bs) := rfl

lemma isPre_append_self (p t : List Char) : isPre p (p ++ t) = true := by
  induction p with
  | nil => rfl
  | cons a as ih => simp [isPre, ih]

lemma isPre_iff (p s : List Char) : isPre p s = true ↔ ∃ t, s = p ++ t := by
  induction p generalizing s with
  | nil => simp [isPre]
  | cons a as ih =>
    cases s with
    | nil =>
      constructor
      · intro h; exact absurd h (by simp [isPre])
      · rintro ⟨t, ht⟩; exact absurd ht (by simp)
    | cons b bs =>
      rw [isPre_cons, Bool.and_eq_true]
      constructor
      · rintro ⟨h1, h2⟩
        obtain ⟨t, ht⟩ := (ih bs).mp h2
        have hab : a = b := by exact_mod_cast beq_iff_eq.mp h1
        exact ⟨t, by rw [List.cons_append, ← hab, ht]⟩
      · rintro ⟨t, ht⟩
        rw [List.cons_append] at ht
        injection ht with h1 h2
        exact ⟨beq_iff_eq.mpr h1.symm, (ih bs).mpr ⟨t, h2⟩⟩

lemma hasSubstr_of_isPre (nd s : List Char) (h : isPre nd s = true) :
    hasSubstr nd s = true := by
  cases s with
  | nil =>
    cases nd with
    | nil => rfl
    | cons a as => exact absurd h (by simp [isPre])
  | cons c rest => simp [hasSubstr, h]

lemma takeWhile_append_dq (M u : List Char) (h : ∀ c ∈ M, c ≠ dq) :
    (M ++ dq :: u).takeWhile (fun c => c != dq) = M := by
  induction M with
  | nil => simp
  | cons c cs ih =>
    have hc : c ≠ dq := h c (by simp)
    rw [List.cons_append, List.takeWhile_cons]
    simp only [bne_iff_ne, ne_eq, hc, not_false_eq_true, if_true]
    rw [ih (fun c2 hc2 => h c2 (by simp [hc2]))]

lemma grabValue_append (M u : List Char) (hM : M ≠ []) (h : ∀ c ∈ M, c ≠ dq) :
    grabValue (M ++ dq :: u) = some M := by
  unfold grabValue
  rw [takeWhile_append_dq M u h]
  rw [if_neg hM, if_neg]
  simp

lemma matchAt_append_self (key X : List Char) : matchAt key (key ++ X) = grabValue X := by
  unfold matchAt
  rw [if_pos (isPre_append_self key X), List.drop_left]

lemma matchAt_head_ne (k0 : Char) (kr : List Char) (c : Char) (s : List Char)
    (h : ¬ k0 = c) : matchAt (k0 :: kr) (c :: s) = none := by
  have hf : isPre (k0 :: kr) (c :: s) = false := by
    rw [isPre_cons, beq_eq_false_iff_ne.mpr h, Bool.false_and]
  simp [matchAt, hf]

lemma searchKey_cons (key : List Char) (c : Char) (rest : List Char) :
    searchKey key (c :: rest) =
      match matchAt key (c :: rest) with
      | some v => some v
      | none => searchKey key rest := rfl

lemma searchKey_cons_of_none (key : List Char) (c : Char) (rest : List Char)
    (h : matchAt key (c :: rest) = none) :
    searchKey key (c :: rest) = searchKey key rest := by
  rw [searchKey_cons, h]

lemma searchKey_cons_of_some (key : List Char) (c : Char) (rest v : List Char)
    (h : matchAt key (c :: rest) = some v) :
    searchKey key (c :: rest) = some v := by
  rw [searchKey_cons, h]

lemma searchKey_skip (key seg t : List Char)
    (h : ∀ n, n < seg.length → matchAt key (seg.drop n ++ t) = none) :
    searchKey key (seg ++ t) = searchKey key t := by
  induction seg with
  | nil => simp
  | cons c cs ih =>
    have h0 : matchAt key (c :: (cs ++ t)) = none := by
      have := h 0 (by simp)
      simpa using this
    rw [List.cons_append, searchKey_cons_of_none key c (cs ++ t) h0]
    exact ih (fun n hn => by
      have := h (n + 1) (by simp; omega)
      simpa using this)

lemma searchKey_skip_chars (k0 : Char) (kr seg t : List Char)
    (h : ∀ c ∈ seg, ¬ k0 = c) :
    searchKey (k0 :: kr) (seg ++ t) = searchKey (k0 :: kr) t := by
  induction seg with
  | nil => simp
  | cons c cs ih =>
    rw [List.cons_append,
      searchKey_cons_of_none (k0 :: kr) c (cs ++ t)
        (matchAt_head_ne k0 kr c (cs ++ t) (h c (by simp)))]
    exact ih (fun c2 hc2 => h c2 (by simp [hc2]))

/-- Skip a segment in which the key's first character never occurs.  The
key is given unsplit so concrete side conditions discharge by `decide`. -/
lemma searchKey_skip_seg (key seg t : List Char) (hk : key ≠ [])
    (h : ∀ c ∈ seg, key.head? ≠ some c) :
    searchKey key (seg ++ t) = searchKey key t := by
  cases key with
  | nil => exact absurd rfl hk
  | cons k0 kr =>
    exact searchKey_skip_chars k0 kr seg t
      (fun c hc hkc => h c hc (by simp [hkc]))

lemma searchKey_skip_one (key : List Char) (c : Char) (t : List Char)
    (hk : key ≠ []) (h : key.head? ≠ some c) :
    searchKey key (c :: t) = searchKey key t := by
  cases key with
  | nil => exact absurd rfl hk
  | cons k0 kr =>
    exact searchKey_cons_of_none (k0 :: kr) c t
      (matchAt_head_ne k0 kr c t (fun hkc => h (by simp [hkc])))

lemma searchKey_hit (key M u : List Char) (hk : key ≠ []) (hM : M ≠ [])
    (hq : ∀ c ∈ M, c ≠ dq) :
    searchKey key (key ++ (M ++ dq :: u)) = some M := by
  have hm : matchAt key (key ++ (M ++ dq :: u)) = some M := by
    rw [matchAt_append_self, grabValue_append M u hM hq]
  cases key with
  | nil => exact absurd rfl hk
  | cons k0 kr =>
    rw [List.cons_append] at hm ⊢
    exact searchKey_cons_of_some (k0 :: kr) k0 (kr ++ (M ++ dq :: u)) M hm

/-- No occurrence of `kb ++ ["]` can start strictly inside a quote-free
value segment `M` that does not end with `kb`, even using the closing
quote right after `M`. -/
lemma matchAt_none_inside (kb M u : List Char) (n : Nat)
    (hkb : ∀ c ∈ kb, c ≠ dq) (hM : ∀ c ∈ M, c ≠ dq)
    (hsuf : ¬ kb <:+ M) :
    matchAt (kb ++ [dq]) (M.drop n ++ dq :: u) = none := by
  cases hip : isPre (kb ++ [dq]) (M.drop n ++ dq :: u) with
  | false => simp [matchAt, hip]
  | true =>
    exfalso
    obtain ⟨t, ht⟩ := (isPre_iff _ _).mp hip
    rw [List.append_assoc, List.singleton_append] at ht
    have hbsub : ∀ c ∈ M.drop n, c ≠ dq :=
      fun c hc => hM c (List.drop_subset n M hc)
    rcases lt_trichotomy (M.drop n).length kb.length with hlt | heq | hgt
    · have hdrop := congrArg (List.drop (M.drop n).length) ht
      rw [List.drop_left] at hdrop
      rw [List.drop_append_of_le_length (le_of_lt hlt)] at hdrop
      cases hkd : kb.drop (M.drop n).length with
      | nil =>
        have hlen := congrArg List.length hkd
        simp at hlen hlt
        omega
      | cons d ds =>
        rw [hkd, List.cons_append] at hdrop
        have hdq : dq = d := by injection hdrop
        have hdm : d ∈ kb :=
          List.drop_subset (M.drop n).length kb (hkd ▸ List.mem_cons_self d ds)
        exact hkb d hdm hdq.symm
    · have htake := congrArg (List.take (M.drop n).length) ht
      rw [List.take_left] at htake
      rw [heq, List.take_left] at htake
      exact hsuf (htake ▸ List.drop_suffix n M)
    · have htake := congrArg (List.take (kb.length + 1)) ht
      rw [List.take_append_of_le_length (by omega)] at htake
      have hr : (kb ++ dq :: t).take (kb.length + 1) = kb ++ [dq] := by
        rw [List.take_append 1]
        simp
      rw [hr] at htake
      have hdqm : dq ∈ M.drop n := by
        have h1 : dq ∈ (M.drop n).take (kb.length + 1) := by
          rw [htake]; simp
        exact List.take_subset _ _ h1
      exact hbsub dq hdqm rfl

/-- Skip a whole quote-free value segment followed by its closing quote,
for a key of the shape `kb ++ ["]`. -/
lemma searchKey_skip_value (key kb M u : List Char) (hk : key = kb ++ [dq])
    (hkb : ∀ c ∈ kb, c ≠ dq) (hM : ∀ c ∈ M, c ≠ dq) (hsuf : ¬ kb <:+ M) :
    searchKey key (M ++ dq :: u) = searchKey key (dq :: u) := by
  subst hk
  exact searchKey_skip (kb ++ [dq]) M (dq :: u)
    (fun n _ => matchAt_none_inside kb M u n hkb hM hsuf)

/-! ### Header dict lemmas -/

lemma getHeader_setHeader_self (hs : List (String × String)) (k v : String) :
    getHeader (setHeader hs k v) k = some v := by
  induction hs with
  | nil => simp [setHeader, getHeader]
  | cons p rest ih =>
    obtain ⟨k2, v2⟩ := p
    by_cases hk : k2 = k
    · simp [setHeader, hk, getHeader]
    · simp [setHeader, hk, getHeader, ih]

lemma getHeader_setHeader_ne (hs : List (String × String)) (k v k2 : String)
    (h : k2 ≠ k) : getHeader (setHeader hs k v) k2 = getHeader hs k2 := by
  induction hs with
  | nil => simp [setHeader, getHeader, Ne.symm h]
  | cons p rest ih =>
    obtain ⟨k3, v3⟩ := p
    by_cases hk : k3 = k
    · subst hk
      simp [setHeader, getHeader, Ne.symm h]
    · simp [setHeader, hk, getHeader, ih]

/-! ### Shape lemmas for the session's branches -/

lemma sessionRequest_err (t : Nat → Request → Except String Response)
    (w : String → Option String) (req : Request) (e : String)
    (h : t 0 req = Except.error e) :
    sessionRequest t w req = (Except.error e, ⟨[req], []⟩) := by
  unfold sessionRequest
  rw [h]

lemma sessionRequest_ok (t : Nat → Request → Except String Response)
    (w : String → Option String) (req : Request) (resp : Response)
    (h : t 0 req = Except.ok resp) :
    sessionRequest t w req =
      if resp.statusCode = 402 then handlePaymentFlow t w resp req
      else (Except.ok resp, ⟨[req], []⟩) := by
  unfold sessionRequest
  rw [h]

lemma handlePaymentFlow_parse_none (t : Nat → Request → Except String Response)
    (w : String → Option String) (resp : Response) (req : Request)
    (hp : parseChallenge (getHeader resp.headers authHeaderName) = none) :
    handlePaymentFlow t w resp req = (Except.ok resp, ⟨[req], []⟩) := by
  unfold handlePaymentFlow
  rw [hp]

lemma handlePaymentFlow_pay_none (t : Nat → Request → Except String Response)
    (w : String → Option String) (resp : Response) (req : Request)
    (m i : String)
    (hp : parseChallenge (getHeader resp.headers authHeaderName) = some (m, i))
    (hw : payInvoiceChecked w i = none) :
    handlePaymentFlow t w resp req = (Except.ok resp, ⟨[req], [i]⟩) := by
  unfold handlePaymentFlow
  rw [hp]
  show (match payInvoiceChecked w i with
    | none => (Except.ok resp, (⟨[req], [i]⟩ : CallLog))
    | some preimage =>
      (t 1 (buildRetryRequest req (l402Sp ++ m ++ colonS ++ preimage)).1,
       ⟨[req, (buildRetryRequest req (l402Sp ++ m ++ colonS ++ preimage)).1], [i]⟩)) =
    (Except.ok resp, ⟨[req], [i]⟩)
  rw [hw]

lemma handlePaymentFlow_pay_some (t : Nat → Request → Except String Response)
    (w : String → Option String) (resp : Response) (req : Request)
    (m i p : String)
    (hp : parseChallenge (getHeader resp.headers authHeaderName) = some (m, i))
    (hw : payInvoiceChecked w i = some p) :
    handlePaymentFlow t w resp req =
      (t 1 (buildRetryRequest req (l402Sp ++ m ++ colonS ++ p)).1,
       ⟨[req, (buildRetryRequest req (l402Sp ++ m ++ colonS ++ p)).1], [i]⟩) := by
  unfold handlePaymentFlow
  rw [hp]
  show (match payInvoiceChecked w i with
    | none => (Except.ok resp, (⟨[req], [i]⟩ : CallLog))
    | some preimage =>
      (t 1 (buildRetryRequest req (l402Sp ++ m ++ colonS ++ preimage)).1,
       ⟨[req, (buildRetryRequest req (l402Sp ++ m ++ colonS ++ preimage)).1], [i]⟩)) = _
  rw [hw]

lemma payInvoiceChecked_of_some (w : String → Option String) (i p : String)
    (hw : w i = some p) (hp : p ≠ emptyS) : payInvoiceChecked w i = some p := by
  simp [payInvoiceChecked, hw, hp]

lemma payInvoiceChecked_of_fail (w : String → Option String) (i : String)
    (hw : w i = none ∨ w i = some emptyS) : payInvoiceChecked w i = none := by
  rcases hw with hw | hw <;> simp [payInvoiceChecked, hw]

/-! ### Parse-failure lemmas -/

lemma parseChars_nil : parseChars [] = none := rfl

lemma parseChars_none_of_scheme (l : List Char)
    (h1 : hasSubstr l402L l = false) (h2 : hasSubstr lsatL l = false) :
    parseChars l = none := by
  unfold parseChars
  split
  · rfl
  · rw [h1, h2]
    rfl

lemma parseChars_none_of_mac (l : List Char)
    (hm : searchKey macKey l = none) : parseChars l = none := by
  unfold parseChars
  split
  · rfl
  · split
    · rfl
    · cases hi : searchKey invKey l <;> rw [hm]

lemma parseChars_none_of_inv (l : List Char)
    (hi : searchKey invKey l = none) : parseChars l = none := by
  unfold parseChars
  split
  · rfl
  · split
    · rfl
    · cases hm : searchKey macKey l <;> rw [hi]

lemma parseChallenge_none_of_chars (s : String)
    (h : parseChars s.toList = none) : parseChallenge (some s) = none := by
  simp only [parseChallenge]
  rw [show parseChars s.toList = none from h]

/-! ### Canonical challenge-header forms (spec section 6 grammar) -/

/-- The text `k="v"` of one `key="value"` pair. -/
def pairText (k v : List Char) : List Char :=
  k ++ ('=' :: (dq :: (v ++ [dq])))

/-- Comma-separated `key="value"` pairs, as in the spec's header grammar. -/
def joinPairs : List (List Char × List Char) → List Char
  | [] => []
  | [p] => pairText p.1 p.2
  | p :: q :: rest => pairText p.1 p.2 ++ (commaSp ++ joinPairs (q :: rest))

/-- A whole challenge header value: the scheme text `L402 ` followed by
comma-separated pairs. -/
def headerOf (ps : List (List Char × List Char)) : List Char :=
  l402SpL ++ joinPairs ps

/-- Provisos on an additional, unrecognized pair: key and value are free
of double quotes, the key does not end with the words `macaroon` or
`invoice` (substring-based key recognition, C9, would fire at it), and
the value does not end with the key texts `macaroon=` or `invoice=`. -/
abbrev SafePair (kv : List Char × List Char) : Prop :=
  (∀ c ∈ kv.1, c ≠ dq) ∧ ¬ macName <:+ kv.1 ∧ ¬ invName <:+ kv.1 ∧
  (∀ c ∈ kv.2, c ≠ dq) ∧ ¬ macBody <:+ kv.2 ∧ ¬ invBody <:+ kv.2

/-- Provisos on a recognized pair's quoted value: non-empty, free of
double quotes, and not ending with the key texts `macaroon=` or
`invoice=`. -/
abbrev SafeValue (v : List Char) : Prop :=
  v ≠ [] ∧ (∀ c ∈ v, c ≠ dq) ∧ ¬ macBody <:+ v ∧ ¬ invBody <:+ v

lemma hasSubstr_l402_append (X : List Char) :
    hasSubstr l402L (l402SpL ++ X) = true := by
  rw [show l402SpL = l402L ++ spL by decide, List.append_assoc]
  exact hasSubstr_of_isPre _ _ (isPre_append_self _ _)

lemma l402SpL_append_ne_nil (X : List Char) : l402SpL ++ X ≠ [] := by
  rw [show l402SpL = l402L ++ spL by decide]
  simp
  intro h
  exact absurd h (by decide)

lemma parseChars_eq_of_searches (h : List Char) (m i : List Char)
    (hne : h ≠ []) (hScheme : hasSubstr l402L h = true)
    (hm : searchKey macKey h = some m) (hi : searchKey invKey h = some i) :
    parseChars h = some (m, i) := by
  unfold parseChars
  rw [if_neg hne, hScheme, hm, hi]
  rfl

lemma suffix_snoc_iff (a k : List Char) (c : Char) :
    (a ++ [c]) <:+ (k ++ [c]) ↔ a <:+ k := by
  constructor
  · rintro ⟨t, ht⟩
    rw [← List.append_assoc] at ht
    exact ⟨t, List.append_cancel_right ht⟩
  · rintro ⟨t, ht⟩
    exact ⟨t, by rw [← List.append_assoc, ht]⟩

lemma SafePair_mac (kv : List Char × List Char) (h : SafePair kv) :
    (∀ c ∈ kv.1, c ≠ dq) ∧ ¬ macBody <:+ kv.1 ++ ['='] ∧
    (∀ c ∈ kv.2, c ≠ dq) ∧ ¬ macBody <:+ kv.2 := by
  refine ⟨h.1, ?_, h.2.2.2.1, h.2.2.2.2.1⟩
  rw [show macBody = macName ++ ['='] by decide, suffix_snoc_iff]
  exact h.2.1

lemma SafePair_inv (kv : List Char × List Char) (h : SafePair kv) :
    (∀ c ∈ kv.1, c ≠ dq) ∧ ¬ invBody <:+ kv.1 ++ ['='] ∧
    (∀ c ∈ kv.2, c ≠ dq) ∧ ¬ invBody <:+ kv.2 := by
  refine ⟨h.1, ?_, h.2.2.2.1, h.2.2.2.2.2⟩
  rw [show invBody = invName ++ ['='] by decide, suffix_snoc_iff]
  exact h.2.2.1

/-- The search for `kb ++ ["]` walks past one whole unrecognized pair and
its separator when the pair's key does not end with `kb`'s key word and
its value does not end with `kb`. -/
lemma searchKey_skip_pairSep (kb k v X : List Char)
    (hkbq : ∀ c ∈ kb, c ≠ dq)
    (hh1 : (kb ++ [dq]).head? ≠ some dq)
    (hhC : ∀ c ∈ commaSp, (kb ++ [dq]).head? ≠ some c)
    (hkq : ∀ c ∈ k, c ≠ dq)
    (hkS : ¬ kb <:+ k ++ ['='])
    (hvq : ∀ c ∈ v, c ≠ dq)
    (hvS : ¬ kb <:+ v) :
    searchKey (kb ++ [dq]) (pairText k v ++ (commaSp ++ X)) =
      searchKey (kb ++ [dq]) X := by
  have hne : kb ++ [dq] ≠ [] := by simp
  have hM : ∀ c ∈ k ++ ['='], c ≠ dq := by
    intro c hc
    rcases List.mem_append.mp hc with h | h
    · exact hkq c h
    · simp at h
      subst h
      decide
  have hshape : pairText k v ++ (commaSp ++ X) =
      (k ++ ['=']) ++ (dq :: (v ++ (dq :: (commaSp ++ X)))) := by
    simp [pairText]
  rw [hshape]
  rw [searchKey_skip_value (kb ++ [dq]) kb (k ++ ['=']) _ rfl hkbq hM hkS]
  rw [searchKey_skip_one (kb ++ [dq]) dq _ hne hh1]
  rw [searchKey_skip_value (kb ++ [dq]) kb v _ rfl hkbq hvq hvS]
  rw [searchKey_skip_one (kb ++ [dq]) dq _ hne hh1]
  exact searchKey_skip_seg (kb ++ [dq]) commaSp X hne hhC

/-- The search for `kb ++ ["]` succeeds at the pair whose key word is
exactly `kb`'s key word, capturing the quoted value. -/
lemma searchKey_pairText_hit (kb kn V Y : List Char) (hk : kb = kn ++ ['='])
    (hV : V ≠ []) (hVq : ∀ c ∈ V, c ≠ dq) :
    searchKey (kb ++ [dq]) (pairText kn V ++ Y) = some V := by
  subst hk
  have hshape : pairText kn V ++ Y =
      ((kn ++ ['=']) ++ [dq]) ++ (V ++ dq :: Y) := by
    simp [pairText]
  rw [hshape]
  exact searchKey_hit _ V Y (by simp) hV hVq

lemma searchKey_pairText_hit_last (kb kn V : List Char) (hk : kb = kn ++ ['='])
    (hV : V ≠ []) (hVq : ∀ c ∈ V, c ≠ dq) :
    searchKey (kb ++ [dq]) (pairText kn V) = some V := by
  subst hk
  have hshape : pairText kn V =
      ((kn ++ ['=']) ++ [dq]) ++ (V ++ dq :: ([] : List Char)) := by
    simp [pairText]
  rw [hshape]
  exact searchKey_hit _ V [] (by simp) hV hVq

/-- In a joined pair list, the search for `kb ++ ["]` skips every earlier
safe pair and captures the value of the first pair carrying `kb`'s key
word, whatever follows it. -/
lemma searchKey_joinPairs (kb kn : List Char) (hk : kb = kn ++ ['='])
    (hkbq : ∀ c ∈ kb, c ≠ dq)
    (hh1 : (kb ++ [dq]).head? ≠ some dq)
    (hhC : ∀ c ∈ commaSp, (kb ++ [dq]).head? ≠ some c)
    (ps : List (List Char × List Char)) (V : List Char)
    (qs : List (List Char × List Char))
    (hV : V ≠ []) (hVq : ∀ c ∈ V, c ≠ dq)
    (hps : ∀ kv ∈ ps, (∀ c ∈ kv.1, c ≠ dq) ∧ ¬ kb <:+ kv.1 ++ ['='] ∧
      (∀ c ∈ kv.2, c ≠ dq) ∧ ¬ kb <:+ kv.2) :
    searchKey (kb ++ [dq]) (joinPairs (ps ++ (kn, V) :: qs)) = some V := by
  revert hps
  induction ps with
  | nil =>
    intro _
    rw [List.nil_append]
    cases qs with
    | nil =>
      exact searchKey_pairText_hit_last kb kn V hk hV hVq
    | cons q qs2 =>
      rw [show joinPairs ((kn, V) :: q :: qs2) =
        pairText kn V ++ (commaSp ++ joinPairs (q :: qs2)) from rfl]
      exact searchKey_pairText_hit kb kn V _ hk hV hVq
  | cons p ps2 ih =>
    intro hps
    obtain ⟨q, rest, hqr⟩ : ∃ q rest, ps2 ++ (kn, V) :: qs = q :: rest := by
      cases ps2 with
      | nil => exact ⟨(kn, V), qs, rfl⟩
      | cons a l => exact ⟨a, l ++ (kn, V) :: qs, by simp⟩
    rw [List.cons_append, hqr]
    rw [show joinPairs (p :: q :: rest) =
      pairText p.1 p.2 ++ (commaSp ++ joinPairs (q :: rest)) from rfl]
    obtain ⟨h1, h2, h3, h4⟩ := hps p (by simp)
    rw [searchKey_skip_pairSep kb p.1 p.2 _ hkbq hh1 hhC h1 h2 h3 h4]
    rw [← hqr]
    exact ih (fun kv hkv => hps kv (by simp [hkv]))

/-- Same, for the whole header (scheme text in front). -/
lemma searchKey_headerOf (kb kn : List Char) (hk : kb = kn ++ ['='])
    (hkbq : ∀ c ∈ kb, c ≠ dq)
    (hh1 : (kb ++ [dq]).head? ≠ some dq)
    (hhC : ∀ c ∈ commaSp, (kb ++ [dq]).head? ≠ some c)
    (hhL : ∀ c ∈ l402SpL, (kb ++ [dq]).head? ≠ some c)
    (ps : List (List Char × List Char)) (V : List Char)
    (qs : List (List Char × List Char))
    (hV : V ≠ []) (hVq : ∀ c ∈ V, c ≠ dq)
    (hps : ∀ kv ∈ ps, (∀ c ∈ kv.1, c ≠ dq) ∧ ¬ kb <:+ kv.1 ++ ['='] ∧
      (∀ c ∈ kv.2, c ≠ dq) ∧ ¬ kb <:+ kv.2) :
    searchKey (kb ++ [dq]) (headerOf (ps ++ (kn, V) :: qs)) = some V := by
  unfold headerOf
  rw [searchKey_skip_seg (kb ++ [dq]) l402SpL _ (by simp) hhL]
  exact searchKey_joinPairs kb kn hk hkbq hh1 hhC ps V qs hV hVq hps

/-! ### Concrete fixtures used by the witnesses -/

def getS : String := "GET"

def urlS : String := "https://api.example.com/data"

def bodyOkS : String := "ok"

def bodyPayS : String := "payment required"

def bodyPay2S : String := "still payment required"

def ctS : String := "Content-Type"

def ctV : String := "application/json"

def oldTokS : String := "Bearer old"

def errS : String := "connection refused"

def m1S : String := "M1"

def lnbc11S : String := "lnbc11"

def pW1S : String := "P1"

def hdrW1S : String := "L402 macaroon=\"M1\", invoice=\"lnbc11\""

def hdrC3S : String := "L402 macaroon=\"M1\", invoice=lnbc1"

def mW4S : String := "M4"

def lnbc4S : String := "lnbc4"

def hdrW4S : String := "L402 macaroon=\"M4\", invoice=\"lnbc4\""

def abcS : String := "abc"

def defS : String := "def"

def lnbc5S : String := "lnbc5"

def hdrW5S : String := "LSAT macaroon=\"abc\", invoice=\"lnbc5\""

def tokW5S : String := "L402 abc:def"

def l402mS : String := "L402M"

def lnbc9S : String := "lnbc9"

def pre9S : String := "pre9"

def hdrC9S : String := "Bearer notmacaroon=\"L402M\", notinvoice=\"lnbc9\""

def cexMS : String := "M"

def cexIS : String := "xmacaroon="

def cexWrongS : String := ", macaroon="

def cexI2S : String := "lnbc7"

def cexXS : String := "X"

def notMacS : String := "notmacaroon"

def scopeNameS : String := "scope"

def expiresNameS : String := "expires"

def wM6S : String := "AGIAJE"

def wI6S : String := "lnbc250n1"

def wE6S : String := "public"

def wX7S : String := "1440"

def cexM : List Char := cexMS.toList

def cexI : List Char := cexIS.toList

def cexWrong : List Char := cexWrongS.toList

def cexI2 : List Char := cexI2S.toList

def cexX : List Char := cexXS.toList

def notMac : List Char := notMacS.toList

def scopeName : List Char := scopeNameS.toList

def expiresName : List Char := expiresNameS.toList

def wM6 : List Char := wM6S.toList

def wI6 : List Char := wI6S.toList

def wE6 : List Char := wE6S.toList

def wX7 : List Char := wX7S.toList

/-- Wallet stub that settles every invoice with preimage `p`. -/
def wOk (p : String) : String → Option String := fun _ => some p

/-- Wallet stub whose `pay_invoice` always raises. -/
def wFail : String → Option String := fun _ => none

def wPay : String → Option String := wOk pW1S

def wDef : String → Option String := wOk defS

/-- Transport stub: `r1` for the first send, `r2` for every retry. -/
def tConst (r1 r2 : Response) : Nat → Request → Except String Response :=
  fun n _ => if n = 0 then Except.ok r1 else Except.ok r2

/-- Transport stub that fails with a connection-level error. -/
def tErrC : Nat → Request → Except String Response :=
  fun _ _ => Except.error errS

def req0 : Request := ⟨getS, urlS, HeadersArg.absent, emptyS⟩

def reqNull : Request := ⟨getS, urlS, HeadersArg.null, emptyS⟩

def reqAuth : Request :=
  ⟨getS, urlS, HeadersArg.given [(authzName, oldTokS), (ctS, ctV)], emptyS⟩

def resp200 : Response := ⟨200, [], bodyOkS⟩

def respW1 : Response := ⟨402, [(authHeaderName, hdrW1S)], bodyPayS⟩

def respW1b : Response := ⟨402, [(authHeaderName, hdrW1S)], bodyPay2S⟩

def respC3 : Response := ⟨402, [(authHeaderName, hdrC3S)], bodyPayS⟩

def respW4 : Response := ⟨402, [(authHeaderName, hdrW4S)], bodyPayS⟩

def respW5 : Response := ⟨402, [(authHeaderName, hdrW5S)], bodyPayS⟩

def respC9 : Response := ⟨402, [(authHeaderName, hdrC9S)], bodyPayS⟩

def tW1 : Nat → Request → Except String Response := tConst respW1 respW1b

def tW2 : Nat → Request → Except String Response := tConst resp200 resp200

def tC3 : Nat → Request → Except String Response := tConst respC3 resp200

def tW4 : Nat → Request → Except String Response := tConst respW4 resp200

def tW5 : Nat → Request → Except String Response := tConst respW5 resp200

def tC9 : Nat → Request → Except String Response := tConst respC9 resp200

def tW10 : Nat → Request → Except String Response := tConst respW1 resp200

/-- The retried request in the C1 witness scenario. -/
def retryW1 : Request :=
  (buildRetryRequest req0 (l402Sp ++ m1S ++ colonS ++ pW1S)).1

/-! ### The claims -/

/-- C1: across one call to `sessionRequest`, the wallet is invoked at most
once and the transport at most twice; and whenever a retry was sent, the
session's result is exactly the transport's answer to that retry, so a
second 402 is returned as-is and the payment flow is never re-entered. -/
theorem session_at_most_one_payment_two_sends
    (t : Nat → Request → Except String Response) (w : String → Option String)
    (req : Request) :
    (sessionRequest t w req).2.walletCalls.length ≤ 1 ∧
    (sessionRequest t w req).2.transportCalls.length ≤ 2 ∧
    (∀ r2 rest, (sessionRequest t w req).2.transportCalls = req :: r2 :: rest →
      (sessionRequest t w req).1 = t 1 r2) := by
  cases hE : t 0 req with
  | error e =>
    rw [sessionRequest_err t w req e hE]
    refine ⟨by simp, by simp, ?_⟩
    intro r2 rest h
    simp at h
  | ok resp =>
    by_cases h402 : resp.statusCode = 402
    · rw [sessionRequest_ok t w req resp hE, if_pos h402]
      cases hp : parseChallenge (getHeader resp.headers authHeaderName) with
      | none =>
        rw [handlePaymentFlow_parse_none t w resp req hp]
        refine ⟨by simp, by simp, ?_⟩
        intro r2 rest h
        simp at h
      | some pr =>
        obtain ⟨m, i⟩ := pr
        cases hw : payInvoiceChecked w i with
        | none =>
          rw [handlePaymentFlow_pay_none t w resp req m i hp hw]
          refine ⟨by simp, by simp, ?_⟩
          intro r2 rest h
          simp at h
        | some p =>
          rw [handlePaymentFlow_pay_some t w resp req m i p hp hw]
          refine ⟨by simp, by simp, ?_⟩
          intro r2 rest h
          simp at h
          obtain ⟨h1, h2⟩ := h
          simp [h1]
    · rw [sessionRequest_ok t w req resp hE, if_neg h402]
      refine ⟨by simp, by simp, ?_⟩
      intro r2 rest h
      simp at h

theorem session_at_most_one_payment_two_sends_witness :
    (sessionRequest tW1 wPay req0).2.walletCalls.length ≤ 1 ∧
    (sessionRequest tW1 wPay req0).2.transportCalls.length ≤ 2 ∧
    (sessionRequest tW1 wPay req0).1 = tW1 1 retryW1 ∧
    tW1 1 retryW1 = Except.ok respW1b ∧ respW1b.statusCode = 402 :=
  ⟨(session_at_most_one_payment_two_sends tW1 wPay req0).1,
   (session_at_most_one_payment_two_sends tW1 wPay req0).2.1,
   (session_at_most_one_payment_two_sends tW1 wPay req0).2.2 retryW1 [] (by decide),
   rfl, rfl⟩

/-- C2: a non-402 response from the initial send is returned unchanged,
with the wallet never invoked and exactly one transport call. -/
theorem session_non402_passthrough
    (t : Nat → Request → Except String Response) (w : String → Option String)
    (req : Request) (resp : Response)
    (h0 : t 0 req = Except.ok resp) (h : resp.statusCode ≠ 402) :
    (sessionRequest t w req).1 = Except.ok resp ∧
    (sessionRequest t w req).2.walletCalls = [] ∧
    (sessionRequest t w req).2.transportCalls = [req] := by
  rw [sessionRequest_ok t w req resp h0, if_neg h]
  exact ⟨rfl, rfl, rfl⟩

theorem session_non402_passthrough_witness :
    (sessionRequest tW2 wPay req0).1 = Except.ok resp200 ∧
    (sessionRequest tW2 wPay req0).2.walletCalls = [] ∧
    (sessionRequest tW2 wPay req0).2.transportCalls = [req0] :=
  session_non402_passthrough tW2 wPay req0 resp200 rfl (by decide)

/-- C3: on a 402 whose challenge header is absent, empty, contains
neither the scheme text L402 nor LSAT, or fails either regex extraction
(`macaroon=`/`invoice=` key absent, unquoted or with an empty value), the
session returns the original 402 response unchanged, no exception crosses
the boundary, the wallet is never invoked, and no retry is sent. -/
theorem session_402_parse_failure_fail_open
    (t : Nat → Request → Except String Response) (w : String → Option String)
    (req : Request) (resp : Response)
    (h0 : t 0 req = Except.ok resp) (h402 : resp.statusCode = 402)
    (hd : getHeader resp.headers authHeaderName = none ∨
      ∃ s, getHeader resp.headers authHeaderName = some s ∧
        (s.toList = [] ∨
         (hasSubstr l402L s.toList = false ∧ hasSubstr lsatL s.toList = false) ∨
         searchKey macKey s.toList = none ∨
         searchKey invKey s.toList = none)) :
    (sessionRequest t w req).1 = Except.ok resp ∧
    (sessionRequest t w req).2.walletCalls = [] ∧
    (sessionRequest t w req).2.transportCalls = [req] := by
  have hp : parseChallenge (getHeader resp.headers authHeaderName) = none := by
    rcases hd with hd | ⟨s, hs, hcase⟩
    · rw [hd]; rfl
    · rw [hs]
      refine parseChallenge_none_of_chars s ?_
      rcases hcase with h | ⟨h1, h2⟩ | h | h
      · rw [h]; exact parseChars_nil
      · exact parseChars_none_of_scheme _ h1 h2
      · exact parseChars_none_of_mac _ h
      · exact parseChars_none_of_inv _ h
  rw [sessionRequest_ok t w req resp h0, if_pos h402,
    handlePaymentFlow_parse_none t w resp req hp]
  exact ⟨rfl, rfl, rfl⟩

theorem session_402_parse_failure_fail_open_witness :
    (sessionRequest tC3 wPay req0).1 = Except.ok respC3 ∧
    (sessionRequest tC3 wPay req0).2.walletCalls = [] ∧
    (sessionRequest tC3 wPay req0).2.transportCalls = [req0] :=
  session_402_parse_failure_fail_open tC3 wPay req0 respC3 rfl (by decide)
    (Or.inr ⟨hdrC3S, rfl, Or.inr (Or.inr (Or.inr (by decide)))⟩)

/-- C4: when the wallet raises or produces an empty proof, the session
returns the original 402 response unchanged (no payment exception reaches
the caller), the transport is invoked exactly once, and the wallet was
invoked with the parsed invoice. -/
theorem session_payment_failure_returns_original
    (t : Nat → Request → Except String Response) (w : String → Option String)
    (req : Request) (resp : Response) (m i : String)
    (h0 : t 0 req = Except.ok resp) (h402 : resp.statusCode = 402)
    (hp : parseChallenge (getHeader resp.headers authHeaderName) = some (m, i))
    (hw : w i = none ∨ w i = some emptyS) :
    (sessionRequest t w req).1 = Except.ok resp ∧
    (sessionRequest t w req).2.transportCalls = [req] ∧
    (sessionRequest t w req).2.walletCalls = [i] := by
  rw [sessionRequest_ok t w req resp h0, if_pos h402,
    handlePaymentFlow_pay_none t w resp req m i hp
      (payInvoiceChecked_of_fail w i hw)]
  exact ⟨rfl, rfl, rfl⟩

theorem session_payment_failure_returns_original_witness :
    (sessionRequest tW4 wFail req0).1 = Except.ok respW4 ∧
    (sessionRequest tW4 wFail req0).2.transportCalls = [req0] ∧
    (sessionRequest tW4 wFail req0).2.walletCalls = [lnbc4S] :=
  session_payment_failure_returns_original tW4 wFail req0 respW4 mW4S lnbc4S
    rfl (by decide) rfl (Or.inl rfl)

/-- C5: on successful payment the session retries exactly once, and the
Authorization header of the retried request is the literal scheme text
`L402 ` followed by `credentialId:proof`, whatever scheme the challenge
carried; the session's result is the retry's response. -/
theorem session_retry_authorization_l402
    (t : Nat → Request → Except String Response) (w : String → Option String)
    (req : Request) (resp : Response) (m i p : String)
    (h0 : t 0 req = Except.ok resp) (h402 : resp.statusCode = 402)
    (hp : parseChallenge (getHeader resp.headers authHeaderName) = some (m, i))
    (hw : w i = some p) (hpne : p ≠ emptyS) :
    (sessionRequest t w req).2.transportCalls =
      [req, (buildRetryRequest req (l402Sp ++ m ++ colonS ++ p)).1] ∧
    getHeader
      (baseHeaders ((buildRetryRequest req (l402Sp ++ m ++ colonS ++ p)).1).headersArg)
      authzName = some (l402Sp ++ m ++ colonS ++ p) ∧
    (sessionRequest t w req).1 =
      t 1 (buildRetryRequest req (l402Sp ++ m ++ colonS ++ p)).1 ∧
    (sessionRequest t w req).2.walletCalls = [i] := by
  rw [sessionRequest_ok t w req resp h0, if_pos h402,
    handlePaymentFlow_pay_some t w resp req m i p hp
      (payInvoiceChecked_of_some w i p hw hpne)]
  refine ⟨rfl, ?_, rfl, rfl⟩
  exact getHeader_setHeader_self (baseHeaders req.headersArg) authzName
    (l402Sp ++ m ++ colonS ++ p)

theorem session_retry_authorization_l402_witness :
    ((sessionRequest tW5 wDef req0).2.transportCalls =
      [req0, (buildRetryRequest req0 (l402Sp ++ abcS ++ colonS ++ defS)).1] ∧
    getHeader
      (baseHeaders ((buildRetryRequest req0 (l402Sp ++ abcS ++ colonS ++ defS)).1).headersArg)
      authzName = some (l402Sp ++ abcS ++ colonS ++ defS) ∧
    (sessionRequest tW5 wDef req0).1 =
      tW5 1 (buildRetryRequest req0 (l402Sp ++ abcS ++ colonS ++ defS)).1 ∧
    (sessionRequest tW5 wDef req0).2.walletCalls = [lnbc5S]) ∧
    l402Sp ++ abcS ++ colonS ++ defS = tokW5S ∧
    getHeader respW5.headers authHeaderName = some hdrW5S :=
  ⟨session_retry_authorization_l402 tW5 wDef req0 respW5 abcS lnbc5S defS
      rfl (by decide) rfl rfl (by decide),
   by decide, rfl⟩

/-- C6 counterexample: all four headers are of the spec's well-formed
`L402 key="value", ...` shape.  First family: with quoted values `M` and
`xmacaroon=`, the two orders of the two recognized pairs parse to
different pairs — in the swapped form the leftmost `re.search` match of
`macaroon="` starts inside the quoted invoice value (which ends with the
text `macaroon=`) and captures `, macaroon=` as the credential
identifier.  Second family: with an additional unrecognized pair
`notmacaroon="X"` (values entirely harmless), the two orders also parse
to different pairs — in the swapped form the match of `macaroon="` fires
at the suffix of the unrecognized key `notmacaroon`, capturing `X` — so
the unrecognized pair is not ignored.  Hence parsing is not
order-independent and extra pairs are not ignored without provisos on
both the values and the keys of the pairs. -/
theorem parse_order_dependent_cex :
    (parseChars (headerOf [(macName, cexM), (invName, cexI)])
        = some (cexM, cexI) ∧
      parseChars (headerOf [(invName, cexI), (macName, cexM)])
        = some (cexWrong, cexI) ∧
      parseChars (headerOf [(invName, cexI), (macName, cexM)]) ≠
        parseChars (headerOf [(macName, cexM), (invName, cexI)])) ∧
    (parseChars (headerOf [(macName, cexM), (notMac, cexX), (invName, cexI2)])
        = some (cexM, cexI2) ∧
      parseChars (headerOf [(invName, cexI2), (notMac, cexX), (macName, cexM)])
        = some (cexX, cexI2) ∧
      parseChars (headerOf [(invName, cexI2), (notMac, cexX), (macName, cexM)]) ≠
        parseChars (headerOf [(macName, cexM), (notMac, cexX), (invName, cexI2)])) :=
  ⟨⟨by decide, by decide, by decide⟩, ⟨by decide, by decide, by decide⟩⟩

/-- C6 (amended): for every well-formed challenge header built from the
recognized `macaroon`/`invoice` pairs (values non-empty, quote-free, not
ending with the key texts `macaroon=`/`invoice=`) and any number of
additional unrecognized pairs anywhere in the header (keys and values
quote-free, keys not ending with the words `macaroon`/`invoice`, values
not ending with the key texts), parsing extracts the same
(credentialId, paymentInstruction) pair regardless of the order in which
the two recognized pairs appear, and the unrecognized pairs are ignored
rather than causing a parse failure. -/
theorem parse_order_independent_amended (M I : List Char)
    (pre mid post : List (List Char × List Char))
    (hM : SafeValue M) (hI : SafeValue I)
    (hextra : ∀ kv ∈ pre ++ mid ++ post, SafePair kv) :
    parseChars (headerOf (pre ++ (macName, M) :: (mid ++ (invName, I) :: post)))
      = some (M, I) ∧
    parseChars (headerOf (pre ++ (invName, I) :: (mid ++ (macName, M) :: post)))
      = some (M, I) := by
  constructor
  · refine parseChars_eq_of_searches _ M I ?_ ?_ ?_ ?_
    · unfold headerOf
      exact l402SpL_append_ne_nil _
    · unfold headerOf
      exact hasSubstr_l402_append _
    · rw [show macKey = macBody ++ [dq] by decide]
      exact searchKey_headerOf macBody macName (by decide) (by decide)
        (by decide) (by decide) (by decide) pre M
        (mid ++ (invName, I) :: post) hM.1 hM.2.1
        (fun kv hkv => SafePair_mac kv (hextra kv (by simp [hkv])))
    · rw [show invKey = invBody ++ [dq] by decide]
      rw [show pre ++ (macName, M) :: (mid ++ (invName, I) :: post) =
        (pre ++ (macName, M) :: mid) ++ ((invName, I) :: post) by simp]
      refine searchKey_headerOf invBody invName (by decide) (by decide)
        (by decide) (by decide) (by decide) (pre ++ (macName, M) :: mid) I
        post hI.1 hI.2.1 ?_
      intro kv hkv
      rcases List.mem_append.mp hkv with h | h
      · exact SafePair_inv kv (hextra kv (by simp [h]))
      · rcases List.mem_cons.mp h with h | h
        · subst h
          refine ⟨?_, ?_, hM.2.1, hM.2.2.2⟩
          · show ∀ c ∈ macName, c ≠ dq
            decide
          · show ¬ invBody <:+ macName ++ ['=']
            decide
        · exact SafePair_inv kv (hextra kv (by simp [h]))
  · refine parseChars_eq_of_searches _ M I ?_ ?_ ?_ ?_
    · unfold headerOf
      exact l402SpL_append_ne_nil _
    · unfold headerOf
      exact hasSubstr_l402_append _
    · rw [show macKey = macBody ++ [dq] by decide]
      rw [show pre ++ (invName, I) :: (mid ++ (macName, M) :: post) =
        (pre ++ (invName, I) :: mid) ++ ((macName, M) :: post) by simp]
      refine searchKey_headerOf macBody macName (by decide) (by decide)
        (by decide) (by decide) (by decide) (pre ++ (invName, I) :: mid) M
        post hM.1 hM.2.1 ?_
      intro kv hkv
      rcases List.mem_append.mp hkv with h | h
      · exact SafePair_mac kv (hextra kv (by simp [h]))
      · rcases List.mem_cons.mp h with h | h
        · subst h
          refine ⟨?_, ?_, hI.2.1, hI.2.2.1⟩
          · show ∀ c ∈ invName, c ≠ dq
            decide
          · show ¬ macBody <:+ invName ++ ['=']
            decide
        · exact SafePair_mac kv (hextra kv (by simp [h]))
    · rw [show invKey = invBody ++ [dq] by decide]
      exact searchKey_headerOf invBody invName (by decide) (by decide)
        (by decide) (by decide) (by decide) pre I
        (mid ++ (macName, M) :: post) hI.1 hI.2.1
        (fun kv hkv => SafePair_inv kv (hextra kv (by simp [hkv])))

theorem parse_order_independent_amended_witness :
    parseChars (headerOf
        [(scopeName, wE6), (macName, wM6), (expiresName, wX7), (invName, wI6)])
      = some (wM6, wI6) ∧
    parseChars (headerOf
        [(scopeName, wE6), (invName, wI6), (expiresName, wX7), (macName, wM6)])
      = some (wM6, wI6) :=
  parse_order_independent_amended wM6 wI6 [(scopeName, wE6)]
    [(expiresName, wX7)] [] (by decide) (by decide) (by decide)

/-- C7: a transport-level failure on the initial send propagates to the
caller unchanged, with no retry and no wallet call; and whenever the
session's result is an error at all, it is an error the transport
returned (on the initial send or on the retry) — no other failure
crosses the session boundary as an exception. -/
theorem transport_error_propagates
    (t : Nat → Request → Except String Response) (w : String → Option String)
    (req : Request) (e : String) (h : t 0 req = Except.error e) :
    (sessionRequest t w req).1 = Except.error e ∧
    (sessionRequest t w req).2.walletCalls = [] ∧
    (sessionRequest t w req).2.transportCalls = [req] ∧
    (∀ t2 w2 req2 e2, (sessionRequest t2 w2 req2).1 = Except.error e2 →
      t2 0 req2 = Except.error e2 ∨ ∃ r2, t2 1 r2 = Except.error e2) := by
  rw [sessionRequest_err t w req e h]
  refine ⟨rfl, rfl, rfl, ?_⟩
  intro t2 w2 req2 e2 hres
  cases hE : t2 0 req2 with
  | error e3 =>
    rw [sessionRequest_err t2 w2 req2 e3 hE] at hres
    simp at hres
    subst hres
    exact Or.inl rfl
  | ok resp =>
    by_cases h402 : resp.statusCode = 402
    · rw [sessionRequest_ok t2 w2 req2 resp hE, if_pos h402] at hres
      cases hp : parseChallenge (getHeader resp.headers authHeaderName) with
      | none =>
        rw [handlePaymentFlow_parse_none t2 w2 resp req2 hp] at hres
        simp at hres
      | some pr =>
        obtain ⟨m, i⟩ := pr
        cases hw : payInvoiceChecked w2 i with
        | none =>
          rw [handlePaymentFlow_pay_none t2 w2 resp req2 m i hp hw] at hres
          simp at hres
        | some p =>
          rw [handlePaymentFlow_pay_some t2 w2 resp req2 m i p hp hw] at hres
          exact Or.inr ⟨_, hres⟩
    · rw [sessionRequest_ok t2 w2 req2 resp hE, if_neg h402] at hres
      simp at hres

theorem transport_error_propagates_witness :
    (sessionRequest tErrC wPay req0).1 = Except.error errS ∧
    (sessionRequest tErrC wPay req0).2.walletCalls = [] ∧
    (sessionRequest tErrC wPay req0).2.transportCalls = [req0] :=
  ⟨(transport_error_propagates tErrC wPay req0 errS rfl).1,
   (transport_error_propagates tErrC wPay req0 errS rfl).2.1,
   (transport_error_propagates tErrC wPay req0 errS rfl).2.2.1⟩

/-- C8: the retried request keeps the original method, url and remaining
options; the caller's header container comes back from the operation
unchanged (the code assigns into a copy); the retry headers carry the
credential under Authorization, overwriting any prior value, and agree
with the caller's base headers on every other key. -/
theorem retry_request_frame (req : Request) (tok : String) :
    ((buildRetryRequest req tok).1).method = req.method ∧
    ((buildRetryRequest req tok).1).url = req.url ∧
    ((buildRetryRequest req tok).1).opts = req.opts ∧
    (buildRetryRequest req tok).2 = req.headersArg ∧
    getHeader (baseHeaders ((buildRetryRequest req tok).1).headersArg) authzName
      = some tok ∧
    (∀ k, k ≠ authzName →
      getHeader (baseHeaders ((buildRetryRequest req tok).1).headersArg) k =
        getHeader (baseHeaders req.headersArg) k) := by
  refine ⟨rfl, rfl, rfl, rfl, ?_, ?_⟩
  · exact getHeader_setHeader_self (baseHeaders req.headersArg) authzName tok
  · intro k hk
    exact getHeader_setHeader_ne (baseHeaders req.headersArg) authzName tok k hk

theorem retry_request_frame_witness :
    ((buildRetryRequest reqAuth tokW5S).1).method = reqAuth.method ∧
    ((buildRetryRequest reqAuth tokW5S).1).url = reqAuth.url ∧
    ((buildRetryRequest reqAuth tokW5S).1).opts = reqAuth.opts ∧
    (buildRetryRequest reqAuth tokW5S).2 = reqAuth.headersArg ∧
    getHeader (baseHeaders ((buildRetryRequest reqAuth tokW5S).1).headersArg)
      authzName = some tokW5S ∧
    getHeader (baseHeaders ((buildRetryRequest reqAuth tokW5S).1).headersArg)
      ctS = getHeader (baseHeaders reqAuth.headersArg) ctS :=
  ⟨(retry_request_frame reqAuth tokW5S).1,
   (retry_request_frame reqAuth tokW5S).2.1,
   (retry_request_frame reqAuth tokW5S).2.2.1,
   (retry_request_frame reqAuth tokW5S).2.2.2.1,
   (retry_request_frame reqAuth tokW5S).2.2.2.2.1,
   (retry_request_frame reqAuth tokW5S).2.2.2.2.2 ctS (by decide)⟩

/-- C9: scheme and key recognition is substring matching.  In this header
the text L402 occurs only inside a quoted parameter value (the scheme
token is Bearer) and `macaroon="` / `invoice="` occur only as suffixes of
the longer keys `notmacaroon` / `notinvoice`; still the parser succeeds,
extracting the quoted values, the wallet is invoked with the extracted
invoice, and a retry is sent whose response the session returns. -/
theorem substring_matching_triggers_payment :
    parseChallenge (some hdrC9S) = some (l402mS, lnbc9S) ∧
    (sessionRequest tC9 (wOk pre9S) req0).2.walletCalls = [lnbc9S] ∧
    (sessionRequest tC9 (wOk pre9S) req0).2.transportCalls.length = 2 ∧
    (sessionRequest tC9 (wOk pre9S) req0).1 = Except.ok resp200 :=
  ⟨rfl, rfl, rfl, rfl⟩

/-- C10: when the caller passed no headers argument, or headers = None, a
successful payment flow still completes: the retried request carries a
freshly created header dict holding exactly the Authorization entry, and
the session returns the retry's response. -/
theorem missing_headers_retry_flow
    (t : Nat → Request → Except String Response) (w : String → Option String)
    (req : Request) (resp : Response) (m i p : String)
    (h0 : t 0 req = Except.ok resp) (h402 : resp.statusCode = 402)
    (hp : parseChallenge (getHeader resp.headers authHeaderName) = some (m, i))
    (hw : w i = some p) (hpne : p ≠ emptyS)
    (hh : req.headersArg = HeadersArg.absent ∨ req.headersArg = HeadersArg.null) :
    (sessionRequest t w req).2.transportCalls =
      [req, (buildRetryRequest req (l402Sp ++ m ++ colonS ++ p)).1] ∧
    ((buildRetryRequest req (l402Sp ++ m ++ colonS ++ p)).1).headersArg =
      HeadersArg.given [(authzName, l402Sp ++ m ++ colonS ++ p)] ∧
    (sessionRequest t w req).1 =
      t 1 (buildRetryRequest req (l402Sp ++ m ++ colonS ++ p)).1 := by
  rw [sessionRequest_ok t w req resp h0, if_pos h402,
    handlePaymentFlow_pay_some t w resp req m i p hp
      (payInvoiceChecked_of_some w i p hw hpne)]
  refine ⟨rfl, ?_, rfl⟩
  rcases hh with hh | hh <;> simp [buildRetryRequest, baseHeaders, hh, setHeader]

theorem missing_headers_retry_flow_witness :
    (sessionRequest tW10 wPay reqNull).2.transportCalls =
      [reqNull, (buildRetryRequest reqNull (l402Sp ++ m1S ++ colonS ++ pW1S)).1] ∧
    ((buildRetryRequest reqNull (l402Sp ++ m1S ++ colonS ++ pW1S)).1).headersArg =
      HeadersArg.given [(authzName, l402Sp ++ m1S ++ colonS ++ pW1S)] ∧
    (sessionRequest tW10 wPay reqNull).1 =
      tW10 1 (buildRetryRequest reqNull (l402Sp ++ m1S ++ colonS ++ pW1S)).1 :=
  missing_headers_retry_flow tW10 wPay reqNull respW1 m1S lnbc11S pW1S
    rfl (by decide) rfl rfl (by decide) (Or.inr rfl)

end SatGate
